import Mathlib

set_option maxRecDepth 8000

/-!
Verification of the preflight diagnostic engine
(`.github/skills/azure-deployment-preflight/preflight.py`).

The Python source is shallowly embedded: pure string manipulation is
translated to executable Lean functions over `String` / `List Char`;
the filesystem is an existence predicate `String → Bool` together with
per-descriptor file contents (`Option String`, `none` meaning the file
cannot be read); the outcome of launching an external process is an
oracle `String → SubprocessOutcome` mapping a command line to either a
completed process or a launch exception.
-/

namespace Preflight

/-- Outcome of attempting to launch one external command: either the
process ran to completion with a return code and captured stdout/stderr,
or the launch raised an exception with the given message. -/
inductive SubprocessOutcome where
  | ok (returncode : Int) (stdout stderr : String)
  | exn (msg : String)
deriving DecidableEq

/-- The `subprocess.run(cmd, shell=True, ...)` call inside `run_cmd`'s
`try` block: it either returns the pair the surrounding code builds from
the completed process, or raises (modelled as `Except.error`).  With
`capture` set, the text component is `stdout + stderr`; otherwise the
code returns `None` for the text. -/
def subprocessRun (capture : Bool) (o : SubprocessOutcome) : Except String (Int × Option String) :=
  match o with
  | .ok rc out err => .ok (rc, if capture then some (out ++ err) else none)
  | .exn msg => .error msg

/-- `run_cmd` of the source (the name is adapted to Lean): wraps the
subprocess launch in `try/except`, converting any launch exception into
the pair `(1, str(e))`. -/
def runCmd (capture : Bool) (o : SubprocessOutcome) : Int × Option String :=
  match subprocessRun capture o with
  | .ok r => r
  | .error e => (1, some e)

/-- The tool-availability map built by `check_tools()`:
`shutil.which` results for the three probed tools (`none` = absent). -/
structure Tools where
  az : Option String
  azd : Option String
  bicep : Option String
deriving DecidableEq

/-- Python truthiness of a `tools.get(name)` value: `None` and the empty
string are falsy, any other string is truthy. -/
def truthy (o : Option String) : Bool :=
  match o with
  | none => false
  | some s => !s.isEmpty

/-- One discovered `*.bicep` descriptor file.  `dir` is `str(p.parent)`,
`name` is `p.name`, `rel` is `str(p.relative_to(root))`, and `content`
is the result of `p.read_text()` (`none` when reading raises). -/
structure Descriptor where
  dir : String
  name : String
  rel : String
  content : Option String

/-- `str(p)` for a descriptor path (POSIX rendering `parent/name`). -/
def pathStr (d : Descriptor) : String := d.dir ++ "/" ++ d.name

/-- `parent / child` path join, as rendered by `str`. -/
def joinP (dir child : String) : String := dir ++ "/" ++ child

/-- Index of the last `'.'` in a file name, if any
(`name.rfind('.')` of Python). -/
def lastDotIdx (name : List Char) : Option Nat :=
  match name.reverse.findIdx? (fun c => c = '.') with
  | some k => some (name.length - 1 - k)
  | none => none

/-- Length of the `pathlib` suffix of a file name: the part from the
last dot on, provided that dot is neither the first nor the last
character; otherwise the suffix is empty. -/
def pySuffixLen (name : List Char) : Nat :=
  match lastDotIdx name with
  | some i => if 0 < i ∧ i < name.length - 1 then name.length - i else 0
  | none => 0

/-- `pathlib.PurePath.with_suffix` on a file name: drop the current
suffix (if any) and append the new one. -/
def pyWithSuffix (name suffix : String) : String :=
  let n := name.data
  ⟨n.take (n.length - pySuffixLen n) ++ suffix.data⟩

/-- `detect_param_files`: the four candidate parameter files, filtered
by existence on the filesystem `fs`, in source order.  `base` is
`bicep_path.with_suffix("")`; the first two candidates re-apply
`with_suffix` to `base`, the last two are fixed names in the same
directory. -/
def detect_param_files (fs : String → Bool) (d : Descriptor) : List String :=
  let base := pyWithSuffix d.name ""
  let c1 := joinP d.dir (pyWithSuffix base ".bicepparam")
  let c2 := joinP d.dir (pyWithSuffix base ".parameters.json")
  let c3 := joinP d.dir "parameters.json"
  let c4 := joinP d.dir "parameters"
  (if fs c1 then [c1] else []) ++ (if fs c2 then [c2] else []) ++
    (if fs c3 then [c3] else []) ++ (if fs c4 then [c4] else [])

/-- ASCII whitespace matched by the regex class `\s`
(the Python pattern is only ever applied to Bicep source text). -/
def isWs (c : Char) : Bool :=
  c = ' ' || c = '\t' || c = '\n' || c = '\r' || c = '\x0b' || c = '\x0c'

/-- Greedy `\s*`. -/
def dropWs : List Char → List Char
  | [] => []
  | c :: cs => if isWs c then dropWs cs else c :: cs

/-- Match a literal, returning the remainder of the input. -/
def stripLit : List Char → List Char → Option (List Char)
  | [], s => some s
  | _ :: _, [] => none
  | p :: ps, c :: cs => if p = c then stripLit ps cs else none

/-- The character class `['\"]`. -/
def isQuote (c : Char) : Bool := c = '\'' || c = '"'

/-- The alternation `(resourceGroup|subscription|managementGroup|tenant)`.
The four words start with pairwise distinct characters, so committed
first-match is equivalent to the regex engine's backtracking. -/
def matchAlt (s : List Char) : Option (String × List Char) :=
  match stripLit "resourceGroup".data s with
  | some r => some ("resourceGroup", r)
  | none =>
    match stripLit "subscription".data s with
    | some r => some ("subscription", r)
    | none =>
      match stripLit "managementGroup".data s with
      | some r => some ("managementGroup", r)
      | none =>
        match stripLit "tenant".data s with
        | some r => some ("tenant", r)
        | none => none

/-- Attempt to match
`targetScope\s*=\s*['\"](resourceGroup|subscription|managementGroup|tenant)['\"]`
at the head of the input, returning the captured group. -/
def matchScopeAt (s : List Char) : Option String :=
  match stripLit "targetScope".data s with
  | none => none
  | some s1 =>
    match dropWs s1 with
    | '=' :: s3 =>
      match dropWs s3 with
      | q1 :: s5 =>
        if isQuote q1 then
          match matchAlt s5 with
          | some (w, q2 :: _) => if isQuote q2 then some w else none
          | _ => none
        else none
      | [] => none
    | _ => none

/-- `re.search` for the scope pattern: first position (left to right)
where the pattern matches. -/
def reSearchScope : List Char → Option String
  | [] => none
  | c :: cs =>
    match matchScopeAt (c :: cs) with
    | some w => some w
    | none => reSearchScope cs

/-- `get_target_scope`: `none` when the file cannot be read; otherwise
the captured scope keyword, defaulting to `"resourceGroup"` when the
pattern does not occur in the text. -/
def get_target_scope (content : Option String) : Option String :=
  match content with
  | none => none
  | some text => some ((reSearchScope text.data).getD "resourceGroup")

/-- The `bicep build {b} --stdout` command string. -/
def bicepBuildCmd (b : String) : String := "bicep build " ++ b ++ " --stdout"

/-- The scope-dependent `az deployment ... what-if` command template of
`main` (lines 154-161), comparing the extracted scope exactly as the
Python `==` chain does (a `None` scope falls through to the tenant
form). -/
def whatIfCmd (scope : Option String) (b : String) : String :=
  if scope = some "resourceGroup" then
    "az deployment group what-if --resource-group <rg-name> --template-file " ++ b ++
      " --validation-level Provider"
  else if scope = some "subscription" then
    "az deployment sub what-if --location <location> --template-file " ++ b ++
      " --validation-level Provider"
  else if scope = some "managementGroup" then
    "az deployment mg what-if --location <location> --management-group-id <mg-id> --template-file "
      ++ b ++ " --validation-level Provider"
  else
    "az deployment tenant what-if --location <location> --template-file " ++ b ++
      " --validation-level Provider"

/-- Scanner for left-to-right, non-overlapping replacement: while the
counter is positive the character belongs to an already-matched
occurrence and is dropped; at counter zero a match of `pat` emits `rep`
and sets the counter to skip the rest of the occurrence. -/
def repAux (pat rep : List Char) : List Char → Nat → List Char
  | [], _ => []
  | _ :: cs, n + 1 => repAux pat rep cs n
  | c :: cs, 0 =>
    if pat ≠ [] ∧ pat.isPrefixOf (c :: cs) then
      rep ++ repAux pat rep cs (pat.length - 1)
    else
      c :: repAux pat rep cs 0

/-- Left-to-right, non-overlapping replacement of every occurrence of
`pat` by `rep`, as `str.replace` does for a non-empty pattern (the
source only ever replaces the non-empty literal `"Provider"`). -/
def replaceAll (pat rep s : List Char) : List Char := repAux pat rep s 0

/-- `s.replace(pat, rep)` of Python on strings. -/
def pyReplace (s pat rep : String) : String :=
  ⟨replaceAll pat.data rep.data s.data⟩

/-- `s[:n]` of Python. -/
def pyTake (n : Nat) (s : String) : String := ⟨s.data.take n⟩

/-- Whether `pat` occurs as a contiguous substring of `s`. -/
def occurs (pat : List Char) : List Char → Bool
  | [] => pat.isPrefixOf []
  | c :: cs => pat.isPrefixOf (c :: cs) || occurs pat cs

/-- Substring occurrence on strings. -/
def strOccurs (pat s : String) : Bool := occurs pat.data s.data

/-- `sep.join(l)` of Python. -/
def pyJoin (sep : String) : List String → String
  | [] => ""
  | [x] => x
  | x :: y :: t => x ++ sep ++ pyJoin sep (y :: t)

/-- Aggregated effect of one iteration fragment of `main`'s descriptor
loop: command strings appended to `commands`, note strings appended to
`notes`, and the command lines actually handed to the shell runner. -/
structure StepResult where
  cmds : List String
  notes : List String
  execs : List String
deriving DecidableEq

/-- The `bicep build` fragment of the loop body (lines 146-152): the
build command is synthesized whenever the build tool is available, and
run only under `--execute`; a non-zero exit appends a note carrying the
first 200 characters of the combined output. -/
def bicepStep (execute : Bool) (tools : Tools) (oracle : String → SubprocessOutcome)
    (p : String) : StepResult :=
  if truthy tools.bicep then
    if execute then
      if (runCmd true (oracle (bicepBuildCmd p))).1 ≠ 0 then
        ⟨[bicepBuildCmd p],
          ["bicep build failed for " ++ p ++ ": " ++
            pyTake 200 ((runCmd true (oracle (bicepBuildCmd p))).2.getD "")],
          [bicepBuildCmd p]⟩
      else ⟨[bicepBuildCmd p], [], [bicepBuildCmd p]⟩
    else ⟨[bicepBuildCmd p], [], []⟩
  else ⟨[], [], []⟩

/-- The what-if fragment of the loop body (lines 153-175): the dry-run
command is always synthesized; under `--execute` it is run when the
deployment CLI is available, with a single `Provider → ProviderNoRbac`
substitution fallback on non-zero exit. -/
def whatIfStep (execute : Bool) (tools : Tools) (oracle : String → SubprocessOutcome)
    (scope : Option String) (p : String) : StepResult :=
  if execute then
    if !truthy tools.az then
      ⟨[whatIfCmd scope p], ["Cannot execute az commands: 'az' not found in PATH"], []⟩
    else
      if (runCmd true (oracle (whatIfCmd scope p))).1 ≠ 0 then
        if (runCmd true
            (oracle (pyReplace (whatIfCmd scope p) "Provider" "ProviderNoRbac"))).1 ≠ 0 then
          ⟨[whatIfCmd scope p],
            ["what-if failed for " ++ p ++ " (rc=" ++
                toString (runCmd true (oracle (whatIfCmd scope p))).1 ++
                "), trying fallback: ProviderNoRbac",
              "Fallback also failed for " ++ p ++ ": rc=" ++
                toString (runCmd true
                  (oracle (pyReplace (whatIfCmd scope p) "Provider" "ProviderNoRbac"))).1],
            [whatIfCmd scope p, pyReplace (whatIfCmd scope p) "Provider" "ProviderNoRbac"]⟩
        else
          ⟨[whatIfCmd scope p],
            ["what-if failed for " ++ p ++ " (rc=" ++
                toString (runCmd true (oracle (whatIfCmd scope p))).1 ++
                "), trying fallback: ProviderNoRbac"],
            [whatIfCmd scope p, pyReplace (whatIfCmd scope p) "Provider" "ProviderNoRbac"]⟩
      else ⟨[whatIfCmd scope p], [], [whatIfCmd scope p]⟩
  else ⟨[whatIfCmd scope p], [], []⟩

/-- One full iteration of the descriptor loop. -/
def processDescriptor (execute : Bool) (tools : Tools) (oracle : String → SubprocessOutcome)
    (d : Descriptor) : StepResult :=
  let s1 := bicepStep execute tools oracle (pathStr d)
  let s2 := whatIfStep execute tools oracle (get_target_scope d.content) (pathStr d)
  ⟨s1.cmds ++ s2.cmds, s1.notes ++ s2.notes, s1.execs ++ s2.execs⟩

/-- The whole descriptor loop, accumulating in iteration order. -/
def loopDescriptors (execute : Bool) (tools : Tools) (oracle : String → SubprocessOutcome) :
    List Descriptor → StepResult
  | [] => ⟨[], [], []⟩
  | d :: ds =>
    let s := processDescriptor execute tools oracle d
    let r := loopDescriptors execute tools oracle ds
    ⟨s.cmds ++ r.cmds, s.notes ++ r.notes, s.execs ++ r.execs⟩

/-- `str(bool)` of Python. -/
def boolStr (b : Bool) : String := if b then "True" else "False"

/-- `json.dumps` of one `shutil.which` result. -/
def jsonOpt (o : Option String) : String :=
  match o with
  | none => "null"
  | some s => "\"" ++ s ++ "\""

/-- `json.dumps(tools)` for the three-entry availability map. -/
def toolsJson (t : Tools) : String :=
  "\x7b\"az\": " ++ jsonOpt t.az ++ ", \"azd\": " ++ jsonOpt t.azd ++
    ", \"bicep\": " ++ jsonOpt t.bicep ++ "\x7d"

/-- The rendering `- \x60{c}\x60` of one synthesized command. -/
def fmtCmd (c : String) : String := "- `" ++ c ++ "`"

/-- `"\n".join(map) or "- None (dry-run)"`: the Commands section body. -/
def commandsMd (commands : List String) : String :=
  let j := pyJoin "\n" (commands.map fmtCmd)
  if j = "" then "- None (dry-run)" else j

/-- `"\n".join(notes) or "No notes"`: the Notes section body. -/
def notesText (notes : List String) : String :=
  let j := pyJoin "\n" notes
  if j = "" then "No notes" else j

/-- Rendering of an extracted scope inside an f-string (`None` for a
missing value, the string itself otherwise). -/
def scopeStr (s : Option String) : String :=
  match s with
  | none => "None"
  | some v => v

/-- The indented `params:` sub-items of one descriptor entry.  `relTo`
renders a parameter path relative to the root, as `relative_to` does. -/
def paramLines (relTo : String → String) (ps : List String) : String :=
  ps.foldl (fun acc pp => acc ++ "  - params: " ++ relTo pp ++ "\n") ""

/-- One entry of the per-descriptor Files listing. -/
def fileLine (fs : String → Bool) (relTo : String → String) (d : Descriptor) : String :=
  "- " ++ d.rel ++ " (scope: " ++ scopeStr (get_target_scope d.content) ++ ")\n" ++
    paramLines relTo (detect_param_files fs d)

/-- The Files section, starting from the literal newline the source
initializes `files_section` with. -/
def filesSection (fs : String → Bool) (relTo : String → String) (ds : List Descriptor) : String :=
  ds.foldl (fun acc d => acc ++ fileLine fs relTo d) "\n"

/-- `REPORT_TEMPLATE.format(...)`: the full Markdown report text. -/
def reportContent (timestamp rootStr : String) (azd : Bool) (ds : List Descriptor)
    (tools : Tools) (commands notes : List String) (fs : String → Bool)
    (relTo : String → String) : String :=
  "# Azure Deployment Preflight Report\n\n**Generated:** " ++ timestamp ++
    "Z\n**Project Root:** " ++ rootStr ++ "\n\n## Summary\n\n- azd project: " ++ boolStr azd ++
    "\n- Bicep files found: " ++ toString ds.length ++ "\n- Tools: " ++ toolsJson tools ++
    "\n\n## Files\n\n" ++ filesSection fs relTo ds ++ "\n\n## Commands\n\n" ++
    commandsMd commands ++ "\n\n## Notes\n\n" ++ notesText notes ++ "\n"

/-- Every non-empty tail of `l` neither has `pat` as a prefix nor is a
prefix of `pat`: no occurrence of `pat` can start inside `l`, whatever
follows it. -/
def cleanLeft (pat l : List Char) : Bool :=
  l.tails.all fun t => t.isEmpty || (!(pat.isPrefixOf t) && !(t.isPrefixOf pat))

/-- No occurrence of `pat` can straddle a boundary right before `B`: no
proper non-empty tail of `pat` is a prefix of `B`. -/
def noSpan (pat B : List Char) : Bool :=
  (List.range pat.length).all fun j => j == 0 || !((pat.drop j).isPrefixOf B)

/-- Result of `generate_report`: the text written to the output path
(`write_text`, which truncates any existing file) and the text returned
to the caller for display. -/
structure ReportResult where
  written : String
  returned : String

/-- `generate_report`: renders the report, writes it out, returns it. -/
def generate_report (timestamp rootStr : String) (azd : Bool) (ds : List Descriptor)
    (tools : Tools) (commands notes : List String) (fs : String → Bool)
    (relTo : String → String) : ReportResult :=
  let content := reportContent timestamp rootStr azd ds tools commands notes fs relTo
  ⟨content, content⟩

/-- Result of one whole run of `main` after argument parsing. -/
structure MainResult where
  commands : List String
  notes : List String
  executed : List String
  report : ReportResult

/-- The body of `main` after argument parsing and scanning: `ds` is the
list returned by `find_bicep_files`, `execute` the `--execute` flag.
`executed` records every command line handed to the shell runner, in
order. -/
def mainRun (fs : String → Bool) (ds : List Descriptor) (tools : Tools) (execute : Bool)
    (oracle : String → SubprocessOutcome) (rootStr timestamp : String) (azd : Bool)
    (relTo : String → String) : MainResult :=
  let initNotes := if ds.isEmpty then ["No .bicep files found."] else []
  let lr := loopDescriptors execute tools oracle ds
  let allNotes := initNotes ++ lr.notes
  let rep := generate_report timestamp rootStr azd ds tools lr.cmds allNotes fs relTo
  ⟨lr.cmds, allNotes, lr.execs, rep⟩

/-- Concrete availability map with only the deployment CLI present. -/
def toolsAzOnly : Tools := ⟨some "/usr/bin/az", none, none⟩

/-- The resource-group dry-run command for a concrete descriptor path. -/
def cmdRg : String := whatIfCmd (some "resourceGroup") "main.bicep"

/-- Concrete execution environment in which the original dry-run
command exits with code 1 and every other command (in particular the
fallback) succeeds. -/
def oracleFailThenOk : String → SubprocessOutcome :=
  fun c => if c = cmdRg then .ok 1 "boom" "" else .ok 0 "" ""

/-- Concrete filesystem containing exactly the sibling
`d/a.b.bicepparam` of the descriptor `d/a.b.bicep`. -/
def fsOnlyDotted : String → Bool := fun s => s == "d/a.b.bicepparam"

/-- Concrete descriptor whose file name carries an inner extension. -/
def descDotted : Descriptor := ⟨"d", "a.b.bicep", "a.b.bicep", none⟩

end Preflight

namespace Preflight

theorem data_append (a b : String) : (a ++ b).data = a.data ++ b.data := by
  cases a
  cases b
  rfl

theorem string_eq_of_data {a b : String} (h : a.data = b.data) : a = b := by
  cases a
  cases b
  exact congrArg String.mk h

theorem isPrefixOf_nil_left (s : List Char) : List.isPrefixOf ([] : List Char) s = true := by
  simp [List.isPrefixOf]

theorem isPrefixOf_refl (l : List Char) : l.isPrefixOf l = true := by
  induction l with
  | nil => simp [List.isPrefixOf]
  | cons c cs ih => simp [List.isPrefixOf, ih]

theorem isPrefixOf_self_append (l r : List Char) : l.isPrefixOf (l ++ r) = true := by
  induction l with
  | nil => simp [List.isPrefixOf]
  | cons c cs ih => simp [List.isPrefixOf, ih]

theorem isPrefixOf_append_of_isPrefixOf {l m : List Char} (r : List Char)
    (h : l.isPrefixOf m = true) : l.isPrefixOf (m ++ r) = true := by
  induction l generalizing m with
  | nil => simp [List.isPrefixOf]
  | cons c cs ih =>
    cases m with
    | nil => simp [List.isPrefixOf] at h
    | cons b bs =>
      simp only [List.isPrefixOf, Bool.and_eq_true, beq_iff_eq] at h ⊢
      exact ⟨h.1, ih h.2⟩

theorem isPrefixOf_length_le {l m : List Char} (h : l.isPrefixOf m = true) :
    l.length ≤ m.length := by
  induction l generalizing m with
  | nil => simp
  | cons c cs ih =>
    cases m with
    | nil => simp [List.isPrefixOf] at h
    | cons b bs =>
      simp only [List.isPrefixOf, Bool.and_eq_true] at h
      simpa using ih h.2

theorem eq_of_isPrefixOf_of_length_ge {l m : List Char} (h : l.isPrefixOf m = true)
    (hl : m.length ≤ l.length) : l = m := by
  induction l generalizing m with
  | nil =>
    cases m with
    | nil => rfl
    | cons b bs => simp at hl
  | cons c cs ih =>
    cases m with
    | nil => simp [List.isPrefixOf] at h
    | cons b bs =>
      simp only [List.isPrefixOf, Bool.and_eq_true, beq_iff_eq] at h
      simp only [List.length_cons, Nat.add_le_add_iff_right] at hl
      rw [h.1, ih h.2 hl]

theorem isPrefixOf_append_split {pat p B : List Char} (h : pat.isPrefixOf (p ++ B) = true) :
    pat.isPrefixOf p = true ∨ p.isPrefixOf pat = true := by
  induction pat generalizing p with
  | nil => exact Or.inl (isPrefixOf_nil_left p)
  | cons a pats ih =>
    cases p with
    | nil => exact Or.inr (isPrefixOf_nil_left _)
    | cons b ps =>
      simp only [List.cons_append, List.isPrefixOf, Bool.and_eq_true, beq_iff_eq] at h ⊢
      rcases ih h.2 with h1 | h1
      · exact Or.inl ⟨h.1, h1⟩
      · exact Or.inr ⟨h.1.symm, h1⟩

theorem isPrefixOf_drop_of_append {p pat B : List Char} (h1 : p.isPrefixOf pat = true)
    (h2 : pat.isPrefixOf (p ++ B) = true) : (pat.drop p.length).isPrefixOf B = true := by
  induction p generalizing pat with
  | nil => simpa using h2
  | cons c ps ih =>
    cases pat with
    | nil => simp [List.isPrefixOf] at h1
    | cons a pats =>
      simp only [List.isPrefixOf, Bool.and_eq_true, beq_iff_eq] at h1
      simp only [List.cons_append, List.isPrefixOf, Bool.and_eq_true] at h2
      simpa using ih h1.2 h2.2

theorem occurs_nil_pat (s : List Char) : occurs [] s = true := by
  cases s with
  | nil => simp [occurs, List.isPrefixOf]
  | cons c cs => simp [occurs, List.isPrefixOf]

theorem occurs_of_isPrefixOf {pat s : List Char} (h : pat.isPrefixOf s = true) :
    occurs pat s = true := by
  cases s with
  | nil => simpa [occurs] using h
  | cons c cs => simp [occurs, h]

theorem occurs_append_right {pat r : List Char} (l : List Char) (h : occurs pat r = true) :
    occurs pat (l ++ r) = true := by
  induction l with
  | nil => simpa using h
  | cons c cs ih => simp [occurs, ih]

theorem occurs_append_left {pat l : List Char} (r : List Char) (h : occurs pat l = true) :
    occurs pat (l ++ r) = true := by
  induction l with
  | nil =>
    cases pat with
    | nil => exact occurs_nil_pat r
    | cons a ps => simp [occurs, List.isPrefixOf] at h
  | cons c cs ih =>
    have hshape : occurs pat ((c :: cs) ++ r) =
        (pat.isPrefixOf ((c :: cs) ++ r) || occurs pat (cs ++ r)) := rfl
    simp only [occurs, Bool.or_eq_true] at h
    rw [hshape]
    rcases h with h | h
    · rw [isPrefixOf_append_of_isPrefixOf r h, Bool.true_or]
    · rw [ih h, Bool.or_true]

theorem noSpan_spec {pat B : List Char} (h : noSpan pat B = true) :
    ∀ j, 0 < j → j < pat.length → (pat.drop j).isPrefixOf B = false := by
  intro j hj0 hjl
  have hall := (List.all_eq_true.mp h) j (List.mem_range.mpr hjl)
  simp only [Bool.or_eq_true, beq_iff_eq, Bool.not_eq_true'] at hall
  rcases hall with h1 | h1
  · omega
  · exact h1

theorem occurs_append_none {pat p B : List Char} (h1 : occurs pat p = false)
    (h2 : occurs pat B = false) (h3 : noSpan pat B = true) :
    occurs pat (p ++ B) = false := by
  induction p with
  | nil => simpa using h2
  | cons c ps ih =>
    simp only [occurs, Bool.or_eq_false_iff] at h1
    have hrest : occurs pat (ps ++ B) = false := ih h1.2
    have hshape : occurs pat ((c :: ps) ++ B) =
        (pat.isPrefixOf ((c :: ps) ++ B) || occurs pat (ps ++ B)) := rfl
    cases hpre : pat.isPrefixOf ((c :: ps) ++ B) with
    | false => rw [hshape, hpre, Bool.false_or]; exact hrest
    | true =>
      exfalso
      rcases isPrefixOf_append_split hpre with hsplit | hsplit
      · rw [h1.1] at hsplit
        exact Bool.false_ne_true hsplit
      · have hdrop := isPrefixOf_drop_of_append hsplit hpre
        by_cases hlen : (c :: ps).length < pat.length
        · rw [noSpan_spec h3 (c :: ps).length (by simp) hlen] at hdrop
          exact Bool.false_ne_true hdrop
        · push_neg at hlen
          have heq := eq_of_isPrefixOf_of_length_ge hsplit hlen
          rw [← heq, isPrefixOf_refl] at h1
          exact Bool.false_ne_true h1.1.symm

theorem cleanLeft_occurs_append {pat l : List Char} (r : List Char)
    (h : cleanLeft pat l = true) : occurs pat (l ++ r) = occurs pat r := by
  induction l with
  | nil => rfl
  | cons c cs ih =>
    unfold cleanLeft at h
    rw [List.tails_cons, List.all_cons] at h
    simp only [Bool.and_eq_true] at h
    obtain ⟨hhead, htail⟩ := h
    simp only [List.isEmpty_cons, Bool.false_or, Bool.and_eq_true, Bool.not_eq_true'] at hhead
    have hshape : occurs pat ((c :: cs) ++ r) =
        (pat.isPrefixOf ((c :: cs) ++ r) || occurs pat (cs ++ r)) := rfl
    cases hpre : pat.isPrefixOf ((c :: cs) ++ r) with
    | false =>
      rw [hshape, hpre, Bool.false_or]
      exact ih htail
    | true =>
      exfalso
      rcases isPrefixOf_append_split hpre with hsplit | hsplit
      · rw [hhead.1] at hsplit
        exact Bool.false_ne_true hsplit
      · rw [hhead.2] at hsplit
        exact Bool.false_ne_true hsplit

theorem repAux_skip_chars (pat rep ps r : List Char) :
    repAux pat rep (ps ++ r) ps.length = repAux pat rep r 0 := by
  induction ps with
  | nil => rfl
  | cons a t ih =>
    show repAux pat rep (t ++ r) t.length = repAux pat rep r 0
    exact ih

theorem replaceAll_skip {hc : Char} {pt rep : List Char} (l r : List Char)
    (hl : ∀ c ∈ l, c ≠ hc) :
    replaceAll (hc :: pt) rep (l ++ r) = l ++ replaceAll (hc :: pt) rep r := by
  induction l with
  | nil => simp [replaceAll]
  | cons c cs ih =>
    have hcne : (hc == c) = false := by
      have hx := hl c (by simp)
      simp only [beq_eq_false_iff_ne, ne_eq]
      intro he
      exact hx he.symm
    have hpf : (hc :: pt).isPrefixOf (c :: (cs ++ r)) = false := by
      simp [List.isPrefixOf, hcne]
    have hstep : repAux (hc :: pt) rep (c :: (cs ++ r)) 0 =
        if (hc :: pt) ≠ [] ∧ (hc :: pt).isPrefixOf (c :: (cs ++ r)) then
          rep ++ repAux (hc :: pt) rep (cs ++ r) ((hc :: pt).length - 1)
        else c :: repAux (hc :: pt) rep (cs ++ r) 0 := rfl
    show repAux (hc :: pt) rep (c :: (cs ++ r)) 0 = c :: (cs ++ replaceAll (hc :: pt) rep r)
    rw [hstep, if_neg]
    · rw [show repAux (hc :: pt) rep (cs ++ r) 0 = replaceAll (hc :: pt) rep (cs ++ r) from rfl]
      rw [ih (fun x hx => hl x (by simp [hx]))]
    · intro hcond
      rw [hpf] at hcond
      exact Bool.false_ne_true hcond.2

theorem replaceAll_head {pat : List Char} (rep r : List Char) (hp : pat ≠ []) :
    replaceAll pat rep (pat ++ r) = rep ++ replaceAll pat rep r := by
  cases pat with
  | nil => exact absurd rfl hp
  | cons a ps =>
    have hstep : repAux (a :: ps) rep (a :: (ps ++ r)) 0 =
        if (a :: ps) ≠ [] ∧ (a :: ps).isPrefixOf (a :: (ps ++ r)) then
          rep ++ repAux (a :: ps) rep (ps ++ r) ((a :: ps).length - 1)
        else a :: repAux (a :: ps) rep (ps ++ r) 0 := rfl
    show repAux (a :: ps) rep (a :: (ps ++ r)) 0 = rep ++ replaceAll (a :: ps) rep r
    rw [hstep, if_pos]
    · have hlen : (a :: ps).length - 1 = ps.length := by simp
      rw [hlen, repAux_skip_chars]
      rfl
    · exact ⟨by simp, isPrefixOf_self_append (a :: ps) r⟩

theorem pyJoin_cons_data (sep x : String) (t : List String) :
    ∃ r, (pyJoin sep (x :: t)).data = x.data ++ r := by
  cases t with
  | nil => exact ⟨[], by simp [pyJoin]⟩
  | cons y t2 =>
    refine ⟨sep.data ++ (pyJoin sep (y :: t2)).data, ?_⟩
    show ((x ++ sep) ++ pyJoin sep (y :: t2)).data = _
    rw [data_append, data_append, List.append_assoc]

theorem pyJoin_empty_iff (ns : List String) :
    pyJoin "\n" ns = "" ↔ ns = [] ∨ ns = [""] := by
  cases ns with
  | nil => simp [pyJoin]
  | cons x t =>
    cases t with
    | nil =>
      show x = "" ↔ _
      constructor
      · intro h
        right
        rw [h]
      · intro h
        rcases h with h | h
        · exact absurd h (by simp)
        · simpa using h
    | cons y t2 =>
      constructor
      · intro h
        exfalso
        have hd := congrArg String.data h
        show False
        rw [show pyJoin "\n" (x :: y :: t2) = (x ++ "\n") ++ pyJoin "\n" (y :: t2) from rfl] at hd
        rw [data_append, data_append] at hd
        have h2 : "\n".data = [] := by
          have := List.append_eq_nil.mp (List.append_eq_nil.mp hd).1
          exact this.2
        exact absurd h2 (by decide)
      · intro h
        rcases h with h | h <;> simp at h

theorem newline_mem_pyJoin_data (x y : String) (t : List String) :
    '\n' ∈ (pyJoin "\n" (x :: y :: t)).data := by
  show '\n' ∈ ((x ++ "\n") ++ pyJoin "\n" (y :: t)).data
  rw [data_append, data_append]
  refine List.mem_append.mpr (Or.inl (List.mem_append.mpr (Or.inr ?_)))
  show '\n' ∈ "\n".data
  decide

theorem pyJoin_noNotes_iff (ns : List String) :
    pyJoin "\n" ns = "No notes" ↔ ns = ["No notes"] := by
  cases ns with
  | nil =>
    constructor
    · intro h
      exact absurd h (by decide)
    · intro h
      simp at h
  | cons x t =>
    cases t with
    | nil =>
      show x = "No notes" ↔ _
      constructor
      · intro h
        rw [h]
      · intro h
        simpa using h
    | cons y t2 =>
      constructor
      · intro h
        exfalso
        have hmem := newline_mem_pyJoin_data x y t2
        rw [h] at hmem
        exact absurd hmem (by decide)
      · intro h
        simp at h

theorem occurs_mem_pyJoin {x : String} (sep : String) (l : List String) (h : x ∈ l) :
    occurs x.data (pyJoin sep l).data = true := by
  induction l with
  | nil => simp at h
  | cons a t ih =>
    cases t with
    | nil =>
      have hx : x = a := by simpa using h
      subst hx
      show occurs x.data x.data = true
      exact occurs_of_isPrefixOf (isPrefixOf_refl _)
    | cons b t2 =>
      rcases List.mem_cons.mp h with hx | hx
      · subst hx
        show occurs x.data (((x ++ sep) ++ pyJoin sep (b :: t2))).data = true
        rw [data_append, data_append, List.append_assoc]
        exact occurs_of_isPrefixOf (isPrefixOf_self_append _ _)
      · have ihh := ih hx
        show occurs x.data (((a ++ sep) ++ pyJoin sep (b :: t2))).data = true
        rw [data_append]
        exact occurs_append_right _ ihh

theorem fmtCmd_data (c : String) :
    (fmtCmd c).data = "- `".data ++ (c.data ++ "`".data) := by
  show (("- `" ++ c) ++ "`").data = _
  rw [data_append, data_append, List.append_assoc]

theorem commandsMd_cons_ne (c : String) (t : List String) :
    pyJoin "\n" ((c :: t).map fmtCmd) ≠ "" ∧
    pyJoin "\n" ((c :: t).map fmtCmd) ≠ "- None (dry-run)" := by
  obtain ⟨r, hr⟩ := pyJoin_cons_data "\n" (fmtCmd c) (t.map fmtCmd)
  rw [fmtCmd_data, List.append_assoc] at hr
  rw [List.map_cons]
  constructor
  · intro h
    have hd := congrArg String.data h
    rw [hr] at hd
    have h2 : "- `".data = [] := (List.append_eq_nil.mp hd).1
    exact absurd h2 (by decide)
  · intro h
    have hd := congrArg String.data h
    rw [hr] at hd
    have h3 := congrArg (List.take ("- `".data).length) hd
    rw [List.take_left] at h3
    exact absurd h3 (by decide)

theorem commandsMd_eq_placeholder_iff (cs : List String) :
    commandsMd cs = "- None (dry-run)" ↔ cs = [] := by
  cases cs with
  | nil =>
    constructor
    · intro _
      rfl
    · intro _
      rfl
  | cons c t =>
    obtain ⟨hne, hnp⟩ := commandsMd_cons_ne c t
    show (if pyJoin "\n" ((c :: t).map fmtCmd) = "" then "- None (dry-run)"
      else pyJoin "\n" ((c :: t).map fmtCmd)) = "- None (dry-run)" ↔ _
    rw [if_neg hne]
    constructor
    · intro h
      exact absurd h hnp
    · intro h
      simp at h

theorem notesText_eq_noNotes_iff (ns : List String) :
    notesText ns = "No notes" ↔ ns = [] ∨ ns = [""] ∨ ns = ["No notes"] := by
  show (if pyJoin "\n" ns = "" then "No notes" else pyJoin "\n" ns) = "No notes" ↔ _
  by_cases hj : pyJoin "\n" ns = ""
  · rw [if_pos hj]
    constructor
    · intro _
      rcases (pyJoin_empty_iff ns).mp hj with h | h
      · exact Or.inl h
      · exact Or.inr (Or.inl h)
    · intro _
      rfl
  · rw [if_neg hj]
    constructor
    · intro h
      exact Or.inr (Or.inr ((pyJoin_noNotes_iff ns).mp h))
    · intro h
      rcases h with h | h | h
      · subst h
        exact absurd rfl hj
      · subst h
        exact absurd rfl hj
      · subst h
        rfl

theorem mem_notesText_occurs {n : String} {ns : List String} (h : n ∈ ns) :
    occurs n.data (notesText ns).data = true := by
  show occurs n.data (if pyJoin "\n" ns = "" then "No notes" else pyJoin "\n" ns).data = true
  by_cases hj : pyJoin "\n" ns = ""
  · rw [if_pos hj]
    rcases (pyJoin_empty_iff ns).mp hj with h0 | h0
    · subst h0
      simp at h
    · subst h0
      have hn : n = "" := by simpa using h
      subst hn
      have hdat : "".data = ([] : List Char) := rfl
      rw [hdat]
      exact occurs_nil_pat _
  · rw [if_neg hj]
    exact occurs_mem_pyJoin "\n" ns h

theorem mem_commandsMd_occurs {c : String} {cs : List String} (h : c ∈ cs) :
    occurs (fmtCmd c).data (commandsMd cs).data = true := by
  cases cs with
  | nil => simp at h
  | cons a t =>
    obtain ⟨hne, _⟩ := commandsMd_cons_ne a t
    show occurs (fmtCmd c).data
      (if pyJoin "\n" ((a :: t).map fmtCmd) = "" then "- None (dry-run)"
        else pyJoin "\n" ((a :: t).map fmtCmd)).data = true
    rw [if_neg hne]
    exact occurs_mem_pyJoin "\n" _ (List.mem_map_of_mem fmtCmd h)

theorem whatIfCmd_rg (p : String) :
    whatIfCmd (some "resourceGroup") p =
      "az deployment group what-if --resource-group <rg-name> --template-file " ++ p ++
        " --validation-level Provider" := by
  unfold whatIfCmd
  rw [if_pos rfl]

theorem whatIfCmd_sub (p : String) :
    whatIfCmd (some "subscription") p =
      "az deployment sub what-if --location <location> --template-file " ++ p ++
        " --validation-level Provider" := by
  unfold whatIfCmd
  rw [if_neg (by decide), if_pos rfl]

theorem whatIfCmd_mg (p : String) :
    whatIfCmd (some "managementGroup") p =
      "az deployment mg what-if --location <location> --management-group-id <mg-id> --template-file "
        ++ p ++ " --validation-level Provider" := by
  unfold whatIfCmd
  rw [if_neg (by decide), if_neg (by decide), if_pos rfl]

theorem whatIfCmd_none (p : String) :
    whatIfCmd none p =
      "az deployment tenant what-if --location <location> --template-file " ++ p ++
        " --validation-level Provider" := by
  unfold whatIfCmd
  rw [if_neg (by decide), if_neg (by decide), if_neg (by decide)]

theorem bicepStep_cmds (execute : Bool) (tools : Tools) (oracle : String → SubprocessOutcome)
    (p : String) :
    (bicepStep execute tools oracle p).cmds =
      if truthy tools.bicep then [bicepBuildCmd p] else [] := by
  unfold bicepStep
  split
  · split
    · split <;> rfl
    · rfl
  · rfl

theorem whatIfStep_cmds (execute : Bool) (tools : Tools) (oracle : String → SubprocessOutcome)
    (scope : Option String) (p : String) :
    (whatIfStep execute tools oracle scope p).cmds = [whatIfCmd scope p] := by
  unfold whatIfStep
  split
  · split
    · rfl
    · split
      · split <;> rfl
      · rfl
  · rfl

theorem processDescriptor_cmds (execute : Bool) (tools : Tools)
    (oracle : String → SubprocessOutcome) (d : Descriptor) :
    (processDescriptor execute tools oracle d).cmds =
      (if truthy tools.bicep then [bicepBuildCmd (pathStr d)] else []) ++
        [whatIfCmd (get_target_scope d.content) (pathStr d)] := by
  show (bicepStep execute tools oracle (pathStr d)).cmds ++
      (whatIfStep execute tools oracle (get_target_scope d.content) (pathStr d)).cmds = _
  rw [bicepStep_cmds, whatIfStep_cmds]

theorem bicepStep_no_execute (tools : Tools) (oracle : String → SubprocessOutcome) (p : String) :
    bicepStep false tools oracle p =
      ⟨if truthy tools.bicep then [bicepBuildCmd p] else [], [], []⟩ := by
  unfold bicepStep
  split <;> rfl

theorem whatIfStep_no_execute (tools : Tools) (oracle : String → SubprocessOutcome)
    (scope : Option String) (p : String) :
    whatIfStep false tools oracle scope p = ⟨[whatIfCmd scope p], [], []⟩ := rfl

theorem processDescriptor_no_execute (tools : Tools) (oracle : String → SubprocessOutcome)
    (d : Descriptor) :
    processDescriptor false tools oracle d =
      ⟨(if truthy tools.bicep then [bicepBuildCmd (pathStr d)] else []) ++
        [whatIfCmd (get_target_scope d.content) (pathStr d)], [], []⟩ := by
  unfold processDescriptor
  rw [bicepStep_no_execute, whatIfStep_no_execute]
  rfl

theorem loop_no_execute_execs (tools : Tools) (oracle : String → SubprocessOutcome)
    (ds : List Descriptor) :
    (loopDescriptors false tools oracle ds).execs = [] := by
  induction ds with
  | nil => rfl
  | cons d t ih =>
    show (processDescriptor false tools oracle d).execs ++
      (loopDescriptors false tools oracle t).execs = []
    rw [processDescriptor_no_execute, ih]
    rfl

theorem loop_cmds_mem (execute : Bool) (tools : Tools) (oracle : String → SubprocessOutcome)
    {d : Descriptor} {ds : List Descriptor} (h : d ∈ ds) :
    whatIfCmd (get_target_scope d.content) (pathStr d) ∈
        (loopDescriptors execute tools oracle ds).cmds ∧
      (truthy tools.bicep = true →
        bicepBuildCmd (pathStr d) ∈ (loopDescriptors execute tools oracle ds).cmds) := by
  induction ds with
  | nil => simp at h
  | cons a t ih =>
    have hcmds : (loopDescriptors execute tools oracle (a :: t)).cmds =
        (processDescriptor execute tools oracle a).cmds ++
          (loopDescriptors execute tools oracle t).cmds := rfl
    rcases List.mem_cons.mp h with hx | hx
    · subst hx
      rw [hcmds, processDescriptor_cmds]
      constructor
      · refine List.mem_append.mpr (Or.inl ?_)
        refine List.mem_append.mpr (Or.inr ?_)
        simp
      · intro ht
        refine List.mem_append.mpr (Or.inl ?_)
        refine List.mem_append.mpr (Or.inl ?_)
        rw [ht]
        simp
    · obtain ⟨ih1, ih2⟩ := ih hx
      rw [hcmds]
      constructor
      · exact List.mem_append.mpr (Or.inr ih1)
      · intro ht
        exact List.mem_append.mpr (Or.inr (ih2 ht))

/-- C1 counterexample: for a descriptor that cannot be read
(`content = none`), the extracted scope is `None`, not `resourceGroup`,
and the synthesized dry-run command is the tenant form rather than the
resource-group form; the report renders the scope as `None`. -/
theorem unreadable_scope_counterexample :
    get_target_scope none = none ∧
      get_target_scope none ≠ some "resourceGroup" ∧
      whatIfCmd (get_target_scope none) "main.bicep" =
        "az deployment tenant what-if --location <location> --template-file main.bicep" ++
          " --validation-level Provider" ∧
      scopeStr (get_target_scope none) = "None" := by
  refine ⟨rfl, by decide, ?_, rfl⟩
  decide

/-- C1 (amended): for every descriptor file whose text contains no scope
declaration, the extracted scope is `resourceGroup`, the dry-run command
is the resource-group form and the report renders `resourceGroup`; but
for an unreadable descriptor the extracted scope is `None`, the command
is the tenant form and the report renders `None`. -/
theorem scope_default_amended (text p : String) (h : reSearchScope text.data = none) :
    (get_target_scope (some text) = some "resourceGroup" ∧
      whatIfCmd (get_target_scope (some text)) p =
        "az deployment group what-if --resource-group <rg-name> --template-file " ++ p ++
          " --validation-level Provider" ∧
      scopeStr (get_target_scope (some text)) = "resourceGroup") ∧
    (get_target_scope none = none ∧
      whatIfCmd (get_target_scope none) p =
        "az deployment tenant what-if --location <location> --template-file " ++ p ++
          " --validation-level Provider" ∧
      scopeStr (get_target_scope none) = "None") := by
  have hs : get_target_scope (some text) = some "resourceGroup" := by
    show some ((reSearchScope text.data).getD "resourceGroup") = some "resourceGroup"
    rw [h]
    rfl
  refine ⟨⟨hs, ?_, by rw [hs]; rfl⟩, rfl, ?_, rfl⟩
  · rw [hs, whatIfCmd_rg]
  · exact whatIfCmd_none p

/-- C1 witness: instantiation at the declaration-free text `"x"`. -/
theorem scope_default_amended_witness :
    reSearchScope "x".data = none ∧
      get_target_scope (some "x") = some "resourceGroup" ∧
      whatIfCmd (get_target_scope (some "x")) "main.bicep" =
        "az deployment group what-if --resource-group <rg-name> --template-file main.bicep" ++
          " --validation-level Provider" := by
  have h : reSearchScope "x".data = none := by decide
  have hall := scope_default_amended "x" "main.bicep" h
  refine ⟨h, hall.1.1, ?_⟩
  rw [hall.1.2.1]
  decide

/-- C5: each loop iteration appends exactly one dry-run deployment
command, whatever the tool availability, plus the build-validation
command (which requests stdout output) exactly when the build tool is
available. -/
theorem per_descriptor_commands (execute : Bool) (tools : Tools)
    (oracle : String → SubprocessOutcome) (d : Descriptor) :
    (processDescriptor execute tools oracle d).cmds =
      (if truthy tools.bicep then [bicepBuildCmd (pathStr d)] else []) ++
        [whatIfCmd (get_target_scope d.content) (pathStr d)] ∧
      strOccurs "--stdout" (bicepBuildCmd (pathStr d)) = true := by
  refine ⟨processDescriptor_cmds execute tools oracle d, ?_⟩
  show occurs "--stdout".data ((("bicep build " ++ pathStr d) ++ " --stdout")).data = true
  rw [data_append]
  exact occurs_append_right _ (by decide)

/-- C6: the shell-command runner is total — it always returns an integer
exit status with an output component; a raising launch is converted to
exit status 1 paired with the exception text, never propagated; in
capture mode a completed process yields its code with combined
stdout+stderr. -/
theorem run_cmd_never_raises (capture : Bool) (o : SubprocessOutcome) :
    (∃ rc out, runCmd capture o = (rc, out)) ∧
      (∀ e, subprocessRun capture o = Except.error e →
        runCmd capture o = (1, some e) ∧ (1 : Int) ≠ 0) ∧
      (∀ msg, o = SubprocessOutcome.exn msg → runCmd capture o = (1, some msg)) ∧
      (∀ rc out err, o = SubprocessOutcome.ok rc out err →
        runCmd true o = (rc, some (out ++ err))) := by
  cases o with
  | ok rc out err =>
    refine ⟨⟨rc, if capture then some (out ++ err) else none, rfl⟩, ?_, ?_, ?_⟩
    · intro e he
      exact absurd he (by simp [subprocessRun])
    · intro msg hm
      exact absurd hm (by simp)
    · intro rc2 out2 err2 hm
      injection hm with h1 h2 h3
      subst h1
      subst h2
      subst h3
      rfl
  | exn msg =>
    refine ⟨⟨1, some msg, rfl⟩, ?_, ?_, ?_⟩
    · intro e he
      have hme : msg = e := by
        simpa [subprocessRun] using he
      subst hme
      exact ⟨rfl, by decide⟩
    · intro msg2 hm
      injection hm with h1
      subst h1
      rfl
    · intro rc out err hm
      exact absurd hm (by simp)

/-- C6 witness: a launch failure is caught and reported as `(1, text)`. -/
theorem run_cmd_never_raises_witness :
    runCmd true (SubprocessOutcome.exn "no such binary") = (1, some "no such binary") ∧
      (1 : Int) ≠ 0 := by
  have h := run_cmd_never_raises true (SubprocessOutcome.exn "no such binary")
  exact ⟨h.2.2.1 "no such binary" rfl, by decide⟩

/-- C2: with the execution-request flag unset, no command line is ever
handed to the shell runner, whatever tools are available, and the
commands list still receives the dry-run command for every discovered
descriptor (plus the build command whenever the build tool is
available). -/
theorem no_execute_runs_nothing (fs : String → Bool) (ds : List Descriptor) (tools : Tools)
    (oracle : String → SubprocessOutcome) (rootStr timestamp : String) (azd : Bool)
    (relTo : String → String) :
    (mainRun fs ds tools false oracle rootStr timestamp azd relTo).executed = [] ∧
      ∀ d ∈ ds,
        whatIfCmd (get_target_scope d.content) (pathStr d) ∈
            (mainRun fs ds tools false oracle rootStr timestamp azd relTo).commands ∧
          (truthy tools.bicep = true →
            bicepBuildCmd (pathStr d) ∈
              (mainRun fs ds tools false oracle rootStr timestamp azd relTo).commands) := by
  constructor
  · exact loop_no_execute_execs tools oracle ds
  · intro d hd
    exact loop_cmds_mem false tools oracle hd

/-- C2 witness: one descriptor, build tool available, flag unset. -/
theorem no_execute_runs_nothing_witness :
    (mainRun (fun _ => false) [⟨"r", "main.bicep", "main.bicep", none⟩]
        ⟨none, none, some "/usr/bin/bicep"⟩ false (fun _ => SubprocessOutcome.ok 0 "" "")
        "/r" "TS" false id).executed = [] ∧
      whatIfCmd (get_target_scope (none : Option String)) (pathStr ⟨"r", "main.bicep", "main.bicep", none⟩) ∈
        (mainRun (fun _ => false) [⟨"r", "main.bicep", "main.bicep", none⟩]
          ⟨none, none, some "/usr/bin/bicep"⟩ false (fun _ => SubprocessOutcome.ok 0 "" "")
          "/r" "TS" false id).commands ∧
      bicepBuildCmd (pathStr ⟨"r", "main.bicep", "main.bicep", none⟩) ∈
        (mainRun (fun _ => false) [⟨"r", "main.bicep", "main.bicep", none⟩]
          ⟨none, none, some "/usr/bin/bicep"⟩ false (fun _ => SubprocessOutcome.ok 0 "" "")
          "/r" "TS" false id).commands := by
  have h := no_execute_runs_nothing (fun _ => false) [⟨"r", "main.bicep", "main.bicep", none⟩]
    ⟨none, none, some "/usr/bin/bicep"⟩ (fun _ => SubprocessOutcome.ok 0 "" "") "/r" "TS" false id
  have h3 := h.2 ⟨"r", "main.bicep", "main.bicep", none⟩ (by simp)
  exact ⟨h.1, h3.1, h3.2 rfl⟩

/-- C3 counterexample: deployment CLI present, original dry-run command
fails, fallback succeeds — the notes record only the original failure;
no separate note describes the fallback's (successful) outcome. -/
theorem fallback_success_single_note :
    (whatIfStep true toolsAzOnly oracleFailThenOk (some "resourceGroup") "main.bicep").notes =
        ["what-if failed for main.bicep (rc=1), trying fallback: ProviderNoRbac"] ∧
      (whatIfStep true toolsAzOnly oracleFailThenOk (some "resourceGroup") "main.bicep").notes.length
          = 1 ∧
      (whatIfStep true toolsAzOnly oracleFailThenOk (some "resourceGroup") "main.bicep").execs =
        [cmdRg, pyReplace cmdRg "Provider" "ProviderNoRbac"] := by
  refine ⟨by decide, by decide, by decide⟩

/-- C3 (amended): when an executed dry-run command exits non-zero,
exactly one fallback (the Provider → ProviderNoRbac substitution) is run
— no more retries; the original failure is always noted (the note also
announces the fallback), while a second note reporting the fallback's
outcome is appended only when the fallback itself fails. -/
theorem fallback_once_amended (tools : Tools) (oracle : String → SubprocessOutcome)
    (scope : Option String) (p : String) (haz : truthy tools.az = true)
    (hfail : (runCmd true (oracle (whatIfCmd scope p))).1 ≠ 0) :
    (whatIfStep true tools oracle scope p).execs =
        [whatIfCmd scope p, pyReplace (whatIfCmd scope p) "Provider" "ProviderNoRbac"] ∧
      (whatIfStep true tools oracle scope p).notes =
        ("what-if failed for " ++ p ++ " (rc=" ++
            toString (runCmd true (oracle (whatIfCmd scope p))).1 ++
            "), trying fallback: ProviderNoRbac") ::
          (if (runCmd true
                (oracle (pyReplace (whatIfCmd scope p) "Provider" "ProviderNoRbac"))).1 ≠ 0 then
            ["Fallback also failed for " ++ p ++ ": rc=" ++
              toString (runCmd true
                (oracle (pyReplace (whatIfCmd scope p) "Provider" "ProviderNoRbac"))).1]
          else []) := by
  unfold whatIfStep
  rw [if_pos rfl, if_neg (by simp [haz]), if_pos hfail]
  by_cases h2 :
    (runCmd true (oracle (pyReplace (whatIfCmd scope p) "Provider" "ProviderNoRbac"))).1 ≠ 0
  · rw [if_pos h2]
    exact ⟨rfl, by rw [if_pos h2]⟩
  · rw [if_neg h2]
    exact ⟨rfl, by rw [if_neg h2]⟩

/-- C3 witness: environment in which both the original command and the
fallback fail, so both notes appear and exactly two commands run. -/
theorem fallback_once_amended_witness :
    truthy toolsAzOnly.az = true ∧
      (runCmd true ((fun _ => SubprocessOutcome.ok 1 "" "")
          (whatIfCmd (some "resourceGroup") "main.bicep"))).1 ≠ 0 ∧
      (whatIfStep true toolsAzOnly (fun _ => SubprocessOutcome.ok 1 "" "")
          (some "resourceGroup") "main.bicep").execs =
        [whatIfCmd (some "resourceGroup") "main.bicep",
          pyReplace (whatIfCmd (some "resourceGroup") "main.bicep") "Provider" "ProviderNoRbac"] := by
  have h := fallback_once_amended toolsAzOnly (fun _ => SubprocessOutcome.ok 1 "" "")
    (some "resourceGroup") "main.bicep" (by decide) (by decide)
  exact ⟨by decide, by decide, h.1⟩

/-- C4: the subscription-scope dry-run command always contains the
location placeholder and (for template paths free of it) never the
resource-group placeholder; the management-group command contains both
the location and the management-group-id placeholders. -/
theorem placeholder_properties (p : String) (hp : strOccurs "<rg-name>" p = false) :
    strOccurs "<location>" (whatIfCmd (some "subscription") p) = true ∧
      strOccurs "<rg-name>" (whatIfCmd (some "subscription") p) = false ∧
      strOccurs "<location>" (whatIfCmd (some "managementGroup") p) = true ∧
      strOccurs "<mg-id>" (whatIfCmd (some "managementGroup") p) = true := by
  rw [whatIfCmd_sub, whatIfCmd_mg]
  unfold strOccurs at hp ⊢
  rw [data_append, data_append, data_append, data_append]
  refine ⟨?_, ?_, ?_, ?_⟩
  · exact occurs_append_left _ (occurs_append_left _ (by decide))
  · rw [List.append_assoc]
    rw [cleanLeft_occurs_append _ (by decide)]
    exact occurs_append_none hp (by decide) (by decide)
  · exact occurs_append_left _ (occurs_append_left _ (by decide))
  · exact occurs_append_left _ (occurs_append_left _ (by decide))

/-- C4 witness: evaluation at the template path `main.bicep`. -/
theorem placeholder_properties_witness :
    strOccurs "<rg-name>" "main.bicep" = false ∧
      strOccurs "<location>" (whatIfCmd (some "subscription") "main.bicep") = true ∧
      strOccurs "<rg-name>" (whatIfCmd (some "subscription") "main.bicep") = false ∧
      strOccurs "<mg-id>" (whatIfCmd (some "managementGroup") "main.bicep") = true := by
  have h := placeholder_properties "main.bicep" (by decide)
  exact ⟨by decide, h.1, h.2.1, h.2.2.2⟩

theorem occurs_cons_of {pat cs : List Char} (c : Char) (h : occurs pat cs = true) :
    occurs pat (c :: cs) = true := by
  rw [show occurs pat (c :: cs) = (pat.isPrefixOf (c :: cs) || occurs pat cs) from rfl, h,
    Bool.or_true]

/-- C7: when discovery finds no descriptors, the absence note is
recorded, no command is synthesized or executed, the report shows a
descriptor count of 0 and carries the note, and the run still completes,
returning the same text it writes. -/
theorem no_descriptors_report (fs : String → Bool) (tools : Tools) (execute : Bool)
    (oracle : String → SubprocessOutcome) (rootStr timestamp : String) (azd : Bool)
    (relTo : String → String) :
    (mainRun fs [] tools execute oracle rootStr timestamp azd relTo).notes =
        ["No .bicep files found."] ∧
      (mainRun fs [] tools execute oracle rootStr timestamp azd relTo).commands = [] ∧
      (mainRun fs [] tools execute oracle rootStr timestamp azd relTo).executed = [] ∧
      strOccurs "- Bicep files found: 0"
          (mainRun fs [] tools execute oracle rootStr timestamp azd relTo).report.written = true ∧
      strOccurs "No .bicep files found."
          (mainRun fs [] tools execute oracle rootStr timestamp azd relTo).report.written = true ∧
      (mainRun fs [] tools execute oracle rootStr timestamp azd relTo).report.returned =
        (mainRun fs [] tools execute oracle rootStr timestamp azd relTo).report.written := by
  have hmerge : ∀ X : String,
      (X ++ "\n- Bicep files found: ") ++ toString (List.length ([] : List Descriptor)) =
        X ++ "\n- Bicep files found: 0" := by
    intro X
    apply string_eq_of_data
    simp [data_append, List.append_assoc]
    decide
  refine ⟨rfl, rfl, rfl, ?_, ?_, rfl⟩
  · show occurs "- Bicep files found: 0".data
      (reportContent timestamp rootStr azd [] tools [] ["No .bicep files found."] fs relTo).data
        = true
    unfold reportContent
    rw [hmerge]
    simp only [data_append, List.append_assoc]
    apply occurs_append_right
    apply occurs_append_right
    apply occurs_append_right
    apply occurs_append_right
    apply occurs_append_right
    apply occurs_append_right
    exact occurs_append_left _ (by decide)
  · show occurs "No .bicep files found.".data
      (reportContent timestamp rootStr azd [] tools [] ["No .bicep files found."] fs relTo).data
        = true
    unfold reportContent
    rw [hmerge]
    simp only [data_append, List.append_assoc]
    apply occurs_append_right
    apply occurs_append_right
    apply occurs_append_right
    apply occurs_append_right
    apply occurs_append_right
    apply occurs_append_right
    apply occurs_append_right
    apply occurs_append_right
    apply occurs_append_right
    apply occurs_append_right
    apply occurs_append_right
    apply occurs_append_right
    apply occurs_append_right
    apply occurs_append_right
    exact occurs_append_left _ (by decide)

/-- C8 counterexample: the notes list [""] is not empty, yet it renders
the placeholder — the generated report is byte-for-byte the report of
the empty notes list, whose Notes section reads "No notes". -/
theorem no_notes_counterexample :
    (generate_report "TS" "/r" false [] ⟨none, none, none⟩ [] [""] (fun _ => false) id).written =
        (generate_report "TS" "/r" false [] ⟨none, none, none⟩ [] [] (fun _ => false) id).written ∧
      notesText [""] = "No notes" ∧ ([""] : List String) ≠ [] := by
  refine ⟨by decide, by decide, by simp⟩

/-- C8 (amended): the Commands placeholder appears exactly for an empty
commands list; the Notes placeholder text "No notes" appears exactly
when the notes list is empty, is [""] (a single empty note joins to the
empty string) or is literally ["No notes"]; otherwise commands render
backtick-quoted and notes verbatim, both sections appear inside the
report, and the text written to the output path is the text returned. -/
theorem report_rendering (cs ns : List String) (timestamp rootStr : String) (azd : Bool)
    (ds : List Descriptor) (tools : Tools) (fs : String → Bool) (relTo : String → String) :
    (commandsMd cs = "- None (dry-run)" ↔ cs = []) ∧
      (notesText ns = "No notes" ↔ ns = [] ∨ ns = [""] ∨ ns = ["No notes"]) ∧
      (∀ c ∈ cs, occurs (fmtCmd c).data (commandsMd cs).data = true) ∧
      (∀ n ∈ ns, occurs n.data (notesText ns).data = true) ∧
      strOccurs (commandsMd cs)
          (reportContent timestamp rootStr azd ds tools cs ns fs relTo) = true ∧
      strOccurs (notesText ns)
          (reportContent timestamp rootStr azd ds tools cs ns fs relTo) = true ∧
      (generate_report timestamp rootStr azd ds tools cs ns fs relTo).written =
        (generate_report timestamp rootStr azd ds tools cs ns fs relTo).returned := by
  refine ⟨commandsMd_eq_placeholder_iff cs, notesText_eq_noNotes_iff ns,
    fun c hc => mem_commandsMd_occurs hc, fun n hn => mem_notesText_occurs hn, ?_, ?_, rfl⟩
  · show occurs (commandsMd cs).data
      (reportContent timestamp rootStr azd ds tools cs ns fs relTo).data = true
    unfold reportContent
    simp only [data_append, List.append_assoc]
    apply occurs_append_right
    apply occurs_append_right
    apply occurs_append_right
    apply occurs_append_right
    apply occurs_append_right
    apply occurs_append_right
    apply occurs_append_right
    apply occurs_append_right
    apply occurs_append_right
    apply occurs_append_right
    apply occurs_append_right
    apply occurs_append_right
    apply occurs_append_right
    exact occurs_of_isPrefixOf (isPrefixOf_self_append _ _)
  · show occurs (notesText ns).data
      (reportContent timestamp rootStr azd ds tools cs ns fs relTo).data = true
    unfold reportContent
    simp only [data_append, List.append_assoc]
    apply occurs_append_right
    apply occurs_append_right
    apply occurs_append_right
    apply occurs_append_right
    apply occurs_append_right
    apply occurs_append_right
    apply occurs_append_right
    apply occurs_append_right
    apply occurs_append_right
    apply occurs_append_right
    apply occurs_append_right
    apply occurs_append_right
    apply occurs_append_right
    apply occurs_append_right
    apply occurs_append_right
    exact occurs_of_isPrefixOf (isPrefixOf_self_append _ _)

/-- C8 witness: concrete rendering checks obtained from the theorem. -/
theorem report_rendering_witness :
    commandsMd [] = "- None (dry-run)" ∧
      notesText ["a note"] = "a note" ∧
      occurs (fmtCmd "az cmd").data (commandsMd ["az cmd"]).data = true := by
  have h1 := (report_rendering [] ["a note"] "TS" "/r" false [] ⟨none, none, none⟩
    (fun _ => false) id).1.mpr rfl
  have h2 := (report_rendering ["az cmd"] [] "TS" "/r" false [] ⟨none, none, none⟩
    (fun _ => false) id).2.2.1 "az cmd" (by simp)
  exact ⟨h1, by decide, h2⟩

/-- C9 counterexample: the descriptor `d/a.b.bicep` has the sibling
`d/a.b.bicepparam` (same base name, extension `.bicepparam`) on the
filesystem, yet the detected parameter list is empty, because
`with_suffix` replaces the inner `.b` extension and probes
`d/a.bicepparam` instead. -/
theorem param_sibling_counterexample :
    fsOnlyDotted "d/a.b.bicepparam" = true ∧
      detect_param_files fsOnlyDotted descDotted = [] ∧
      pyWithSuffix (pyWithSuffix descDotted.name "") ".bicepparam" = "a.bicepparam" := by
  refine ⟨by decide, by decide, by decide⟩

/-- C9 (amended): the candidates actually probed are obtained by
`with_suffix` — which replaces a remaining inner extension of the base
name rather than appending — plus `parameters.json` and `parameters` in
the descriptor's directory; every candidate that exists is included (in
order), an absent candidate set yields the empty list, and for base
names without an inner extension the candidates coincide with the
claimed `base ++ ".bicepparam"` / `base ++ ".parameters.json"`
convention.  Detection is a total function and never raises. -/
theorem param_detection_amended (fs : String → Bool) (d : Descriptor) :
    (fs (joinP d.dir (pyWithSuffix (pyWithSuffix d.name "") ".bicepparam")) = true →
      joinP d.dir (pyWithSuffix (pyWithSuffix d.name "") ".bicepparam") ∈
        detect_param_files fs d) ∧
      (fs (joinP d.dir (pyWithSuffix (pyWithSuffix d.name "") ".parameters.json")) = true →
        joinP d.dir (pyWithSuffix (pyWithSuffix d.name "") ".parameters.json") ∈
          detect_param_files fs d) ∧
      (fs (joinP d.dir "parameters.json") = true →
        joinP d.dir "parameters.json" ∈ detect_param_files fs d) ∧
      (fs (joinP d.dir "parameters") = true →
        joinP d.dir "parameters" ∈ detect_param_files fs d) ∧
      (fs (joinP d.dir (pyWithSuffix (pyWithSuffix d.name "") ".bicepparam")) = false →
        fs (joinP d.dir (pyWithSuffix (pyWithSuffix d.name "") ".parameters.json")) = false →
        fs (joinP d.dir "parameters.json") = false →
        fs (joinP d.dir "parameters") = false →
        detect_param_files fs d = []) ∧
      ((∀ c ∈ (pyWithSuffix d.name "").data, c ≠ '.') →
        pyWithSuffix (pyWithSuffix d.name "") ".bicepparam" =
            pyWithSuffix d.name "" ++ ".bicepparam" ∧
          pyWithSuffix (pyWithSuffix d.name "") ".parameters.json" =
            pyWithSuffix d.name "" ++ ".parameters.json") := by
  refine ⟨?_, ?_, ?_, ?_, ?_, ?_⟩
  · intro h
    simp [detect_param_files, h]
  · intro h
    simp [detect_param_files, h]
  · intro h
    simp [detect_param_files, h]
  · intro h
    simp [detect_param_files, h]
  · intro h1 h2 h3 h4
    simp [detect_param_files, h1, h2, h3, h4]
  · intro hnd
    have hnone : List.findIdx? (fun c => decide (c = '.'))
        (pyWithSuffix d.name "").data.reverse = none := by
      apply List.findIdx?_eq_none_iff.mpr
      intro x hx
      simp only [decide_eq_false_iff_not]
      exact hnd x (List.mem_reverse.mp hx)
    have hlen : pySuffixLen (pyWithSuffix d.name "").data = 0 := by
      unfold pySuffixLen lastDotIdx
      rw [hnone]
    constructor
    · apply string_eq_of_data
      show List.take ((pyWithSuffix d.name "").data.length -
            pySuffixLen (pyWithSuffix d.name "").data) (pyWithSuffix d.name "").data ++
          ".bicepparam".data =
        (pyWithSuffix d.name "" ++ ".bicepparam").data
      rw [hlen, Nat.sub_zero, List.take_length, data_append]
    · apply string_eq_of_data
      show List.take ((pyWithSuffix d.name "").data.length -
            pySuffixLen (pyWithSuffix d.name "").data) (pyWithSuffix d.name "").data ++
          ".parameters.json".data =
        (pyWithSuffix d.name "" ++ ".parameters.json").data
      rw [hlen, Nat.sub_zero, List.take_length, data_append]

/-- C9 witness: a single-extension descriptor with two existing
candidates; both are detected, in probe order. -/
theorem param_detection_amended_witness :
    (fun s => s == "d/main.bicepparam" || s == "d/parameters") "d/main.bicepparam" = true ∧
      "d/main.bicepparam" ∈
        detect_param_files (fun s => s == "d/main.bicepparam" || s == "d/parameters")
          ⟨"d", "main.bicep", "main.bicep", none⟩ ∧
      detect_param_files (fun s => s == "d/main.bicepparam" || s == "d/parameters")
          ⟨"d", "main.bicep", "main.bicep", none⟩ = ["d/main.bicepparam", "d/parameters"] := by
  have h := param_detection_amended (fun s => s == "d/main.bicepparam" || s == "d/parameters")
    ⟨"d", "main.bicep", "main.bicep", none⟩
  have h1 := h.1 (by decide)
  have he : joinP "d" (pyWithSuffix (pyWithSuffix ("main.bicep" : String) "") ".bicepparam") =
      "d/main.bicepparam" := by decide
  rw [he] at h1
  exact ⟨by decide, h1, by decide⟩

theorem pyReplace_data (s pat rep : String) :
    (pyReplace s pat rep).data = replaceAll pat.data rep.data s.data := rfl

/-- C10: the fallback is obtained by replacing every occurrence of
"Provider" in the whole command string, so an occurrence inside the
template-file path is rewritten too: for a resource-group command whose
path is `pre ++ "Provider" ++ post` (with the first occurrence inside
the path), the fallback's path segment reads `pre ++ "ProviderNoRbac"`,
and replacement continues through the rest of the command. -/
theorem fallback_rewrites_path (pre post : String) (hpre : ∀ c ∈ pre.data, c ≠ 'P') :
    pyReplace (whatIfCmd (some "resourceGroup") (pre ++ "Provider" ++ post)) "Provider"
        "ProviderNoRbac" =
      "az deployment group what-if --resource-group <rg-name> --template-file " ++ pre ++
        "ProviderNoRbac" ++
        pyReplace (post ++ " --validation-level Provider") "Provider" "ProviderNoRbac" := by
  rw [whatIfCmd_rg]
  apply string_eq_of_data
  repeat rw [pyReplace_data]
  repeat rw [data_append]
  repeat rw [pyReplace_data]
  repeat rw [data_append]
  repeat rw [List.append_assoc]
  have hpat : ("Provider" : String).data = 'P' :: ("rovider" : String).data := by decide
  rw [hpat]
  rw [replaceAll_skip _ _ (by decide :
    ∀ c ∈ ("az deployment group what-if --resource-group <rg-name> --template-file " :
      String).data, c ≠ 'P')]
  rw [replaceAll_skip _ _ hpre]
  rw [replaceAll_head _ _ (by simp)]

/-- C10 witness: a concrete path containing "Provider"; the fallback
rewrites both the path segment and the validation-mode token. -/
theorem fallback_rewrites_path_witness :
    (∀ c ∈ ("infra/" : String).data, c ≠ 'P') ∧
      pyReplace (whatIfCmd (some "resourceGroup") ("infra/" ++ "Provider" ++ "/main.bicep"))
          "Provider" "ProviderNoRbac" =
        "az deployment group what-if --resource-group <rg-name> --template-file " ++ "infra/" ++
          "ProviderNoRbac" ++
          pyReplace ("/main.bicep" ++ " --validation-level Provider") "Provider"
            "ProviderNoRbac" ∧
      pyReplace (whatIfCmd (some "resourceGroup") "infra/Provider/main.bicep") "Provider"
          "ProviderNoRbac" =
        "az deployment group what-if --resource-group <rg-name> --template-file " ++
          "infra/ProviderNoRbac/main.bicep --validation-level ProviderNoRbac" := by
  refine ⟨by decide, fallback_rewrites_path "infra/" "/main.bicep" (by decide), by decide⟩

end Preflight
